import Mathlib

/-!
Verification of the markdown-to-presentation-template parser and the
template data model (files markdown.py and templates.py of the prez
repository), shallowly embedded over strings modelled as `List Char`.
The YAML library is external and is modelled as a parameter of
`parse_content`; everything else is translated from the source.
-/

/-! ## String helpers (Python string primitives over `List Char`) -/

/-- Python whitespace class `\s` restricted to ASCII. -/
def isWS (c : Char) : Bool :=
  c == ' ' || c == '\t' || c == '\n' || c == '\r' || c == Char.ofNat 11 || c == Char.ofNat 12

/-- Python word-character class `\w` restricted to ASCII. -/
def isWordChar (c : Char) : Bool :=
  c.isAlphanum || c == '_'

/-- Python `str.strip()`: drop leading and trailing whitespace. -/
def pstrip (l : List Char) : List Char :=
  ((l.dropWhile isWS).reverse.dropWhile isWS).reverse

/-- Python `str.split('\n')`. -/
def splitOnNl : List Char → List (List Char)
  | [] => [[]]
  | c :: rest =>
    if c = '\n' then [] :: splitOnNl rest
    else
      match splitOnNl rest with
      | [] => [[c]]
      | h :: t => (c :: h) :: t

/-- Python `str.lower()` restricted to ASCII. -/
def lowerStr (l : List Char) : List Char :=
  l.map Char.toLower

/-! ## Data model (templates.py) -/

/-- The SlideType enum of templates.py (`section` spelt `sect`, a Lean keyword). -/
inductive SlideType where
  | title
  | content
  | image
  | comparison
  | sect
deriving DecidableEq, Repr

/-- The string `value` of each enum member. -/
def SlideType.value : SlideType → List Char
  | .title => "title".toList
  | .content => "content".toList
  | .image => "image".toList
  | .comparison => "comparison".toList
  | .sect => "section".toList

/-- Enum lookup `SlideType(v)`; `none` models the ValueError branch. -/
def SlideType.ofValue (v : List Char) : Option SlideType :=
  if v = "title".toList then some .title
  else if v = "content".toList then some .content
  else if v = "image".toList then some .image
  else if v = "comparison".toList then some .comparison
  else if v = "section".toList then some .sect
  else none

/-- A parameter value of a slide template: a string, a list of strings, or a Path. -/
inductive PValue where
  | str (s : List Char)
  | strList (l : List (List Char))
  | path (p : List Char)
deriving DecidableEq, Repr

/-- SlideTemplate: a slide kind together with its keyword parameters
(the Python kwargs dict, in insertion order). -/
structure SlideTemplate where
  slide_type : SlideType
  params : List (List Char × PValue)
deriving DecidableEq, Repr

def SlideTemplate.title_slide (title subtitle : List Char) : SlideTemplate :=
  ⟨.title, [( "title".toList, .str title), ( "subtitle".toList, .str subtitle)]⟩

def SlideTemplate.content_slide (title : List Char) (content : List (List Char)) : SlideTemplate :=
  ⟨.content, [( "title".toList, .str title), ( "content".toList, .strList content)]⟩

def SlideTemplate.image_slide (title image_path caption : List Char) : SlideTemplate :=
  ⟨.image, [( "title".toList, .str title), ( "image_path".toList, .path image_path),
            ( "caption".toList, .str caption)]⟩

def SlideTemplate.section_slide (title description : List Char) : SlideTemplate :=
  ⟨.sect, [( "title".toList, .str title), ( "description".toList, .str description)]⟩

/-- The dictionary form of one slide, as produced by `SlideTemplate.to_dict`. -/
structure SlideDict where
  type : List Char
  params : List (List Char × PValue)
deriving DecidableEq, Repr

def SlideTemplate.to_dict (s : SlideTemplate) : SlideDict :=
  ⟨s.slide_type.value, s.params⟩

/-- A YAML value as returned by the external `yaml.safe_load`. -/
inductive YVal where
  | ynull
  | ybool (b : Bool)
  | yint (n : Int)
  | ystr (s : List Char)
  | ylist (l : List YVal)
  | ymap (m : List (List Char × YVal))

/-- Python truthiness of a YAML value (used by `safe_load(...) or \x7b\x7d`). -/
def YVal.truthy : YVal → Bool
  | .ynull => false
  | .ybool b => b
  | .yint n => n != 0
  | .ystr s => !s.isEmpty
  | .ylist l => !l.isEmpty
  | .ymap m => !m.isEmpty

/-- PresentationTemplate: a name plus an ordered list of slides.  The name
is a YAML value because `parse_content` stores the raw `title` metadata value. -/
structure PresentationTemplate where
  name : YVal
  slides : List SlideTemplate

/-- The dictionary form of a presentation, as produced by `to_dict`. -/
structure PresDict where
  name : YVal
  slides : List SlideDict

def PresentationTemplate.to_dict (t : PresentationTemplate) : PresDict :=
  ⟨t.name, t.slides.map SlideTemplate.to_dict⟩

/-- The slide-reconstruction loop of `PresentationTemplate.from_dict`;
`none` models the ValueError raised by `SlideType(...)` on an unknown value. -/
def slidesFromDicts : List SlideDict → Option (List SlideTemplate)
  | [] => some []
  | d :: ds =>
    match SlideType.ofValue d.type with
    | none => none
    | some ty => (slidesFromDicts ds).map (fun rest => ⟨ty, d.params⟩ :: rest)

def PresentationTemplate.from_dict (d : PresDict) : Option PresentationTemplate :=
  (slidesFromDicts d.slides).map (fun sl => ⟨d.name, sl⟩)

/-! ## Regex models (markdown.py regular expressions, hand-rolled)

The separator regex is `\n---\s*\n` and the front-matter regex is
`^---\s*\n(.*?)\n---\s*\n` with DOTALL; both are modelled with explicit
greedy-plus-backtracking semantics over `List Char`. -/

/-- Index of the last newline of a list, if any. -/
def lastNl : List Char → Option Nat
  | [] => none
  | c :: rest =>
    match lastNl rest with
    | some i => some (i + 1)
    | none => if c = '\n' then some 0 else none

/-- Greedy `\s*\n` with backtracking: consume the maximal whitespace run up
to and including its last newline, returning the remainder; `none` when the
maximal whitespace prefix holds no newline. -/
def sepTail (t : List Char) : Option (List Char) :=
  match lastNl (t.takeWhile isWS) with
  | some i => some (t.drop (i + 1))
  | none => none

/-- Leftmost match of `\n---\s*\n`: returns the text before the match and
the text after it. -/
def findSep : List Char → Option (List Char × List Char)
  | [] => none
  | c :: rest =>
    if c = '\n' ∧ rest.take 3 = [ '-', '-', '-' ] then
      match sepTail (rest.drop 3) with
      | some rem => some ([], rem)
      | none => (findSep rest).map (fun pr => (c :: pr.1, pr.2))
    else (findSep rest).map (fun pr => (c :: pr.1, pr.2))

/-- Fuel-bounded loop of `re.split(r'\n---\s*\n', s)`. -/
def slideSplitAux : Nat → List Char → List (List Char)
  | 0, s => [s]
  | n + 1, s =>
    match findSep s with
    | none => [s]
    | some (p, rem) => p :: slideSplitAux n rem

/-- `self.slide_separator.split(s)`: split on every separator match. -/
def slideSplit (s : List Char) : List (List Char) :=
  slideSplitAux s.length s

/-- Ascending indices of newlines in a list. -/
def nlIdxs : List Char → List Nat
  | [] => []
  | c :: rest =>
    (if c = '\n' then [0] else []) ++ (nlIdxs rest).map (· + 1)

/-- First defined element of a list of options. -/
def firstSome : List (Option α) → Option α
  | [] => none
  | o :: rest =>
    match o with
    | some x => some x
    | none => firstSome rest

/-- `self.frontmatter_pattern.match(content)` for `^---\s*\n(.*?)\n---\s*\n`
(DOTALL): on success returns group 1 (the front-matter body) and the text
after the whole match.  The opener `---\s*\n` backtracks from the greedy
maximal whitespace run, so every newline of that run is tried in descending
order; the lazy group then takes the leftmost closing `\n---\s*\n`. -/
def frontmatterMatch (s : List Char) : Option (List Char × List Char) :=
  if s.take 3 = [ '-', '-', '-' ] then
    let t := s.drop 3
    firstSome (((nlIdxs (t.takeWhile isWS)).reverse).map (fun i => findSep (t.drop (i + 1))))
  else none

/-- Match of `<!--\s*type:\s*(\w+)\s*-->` anchored at the head of the list:
returns the captured word and the text after the match. -/
def matchDirAt (s : List Char) : Option (List Char × List Char) :=
  match s with
  | '<' :: '!' :: '-' :: '-' :: t =>
    let t1 := t.dropWhile isWS
    if t1.take 5 = "type:".toList then
      let t2 := (t1.drop 5).dropWhile isWS
      let w := t2.takeWhile isWordChar
      if w = [] then none
      else
        match (t2.drop w.length).dropWhile isWS with
        | '-' :: '-' :: '>' :: t4 => some (w, t4)
        | _ => none
    else none
  | _ => none

/-- `re.search(r'<!--\s*type:\s*(\w+)\s*-->', content)`: word of the leftmost
type directive, if any. -/
def findDirWord : List Char → Option (List Char)
  | [] => none
  | c :: rest =>
    match matchDirAt (c :: rest) with
    | some (w, _) => some w
    | none => findDirWord rest

/-- Fuel-bounded loop of `re.sub(r'<!--\s*type:\s*\w+\s*-->\s*', '', s)`. -/
def subDirAux : Nat → List Char → List Char
  | 0, s => s
  | _ + 1, [] => []
  | n + 1, c :: cs =>
    match matchDirAt (c :: cs) with
    | some (_, rest) => subDirAux n (rest.dropWhile isWS)
    | none => c :: subDirAux n cs

/-- Remove every type directive (and trailing whitespace) from the content. -/
def subDir (s : List Char) : List Char :=
  subDirAux s.length s

/-- Match of `!\[([^\]]*)\]\(([^)]+)\)` anchored at the head of the list:
returns the alt text and the path. -/
def imgAt (s : List Char) : Option (List Char × List Char) :=
  match s with
  | '!' :: '[' :: t =>
    let alt := t.takeWhile (· ≠ ']')
    match t.drop alt.length with
    | ']' :: '(' :: t3 =>
      let p := t3.takeWhile (· ≠ ')')
      if p = [] then none
      else
        match t3.drop p.length with
        | ')' :: _ => some (alt, p)
        | _ => none
    | _ => none
  | _ => none

/-- `re.search(r'!\[([^\]]*)\]\(([^)]+)\)', line)`: leftmost image markup. -/
def findImg : List Char → Option (List Char × List Char)
  | [] => none
  | c :: rest =>
    match imgAt (c :: rest) with
    | some r => some r
    | none => findImg rest

/-- `line.endswith(('.jpg', '.jpeg', '.png', '.gif', '.bmp'))`. -/
def endsAnyExt (l : List Char) : Bool :=
  ".jpg".toList.isSuffixOf l || ".jpeg".toList.isSuffixOf l || ".png".toList.isSuffixOf l
    || ".gif".toList.isSuffixOf l || ".bmp".toList.isSuffixOf l

/-! ## The parser (markdown.py) -/

/-- State of the title-extraction loop of `_parse_slide`:
`title`, `title_found` and `content_lines`. -/
structure ScanSt where
  title : List Char
  found : Bool
  cls : List (List Char)
deriving DecidableEq, Repr

/-- One iteration of the title-extraction loop of `_parse_slide`. -/
def scanStep (st : ScanSt) (line : List Char) : ScanSt :=
  let l := pstrip line
  if l = [] then st
  else if l.take 1 = [ '#' ] ∧ st.found = false then
    { title := pstrip (l.dropWhile (· = '#')), found := true, cls := st.cls }
  else if st.found = true then { st with cls := st.cls ++ [l] }
  else st

/-- The title-extraction loop of `_parse_slide` over all lines. -/
def titleScan (lines : List (List Char)) : ScanSt :=
  lines.foldl scanStep ⟨[], false, []⟩

/-- The bullet-point loop of the content branch of `_parse_slide`. -/
def bullets : List (List Char) → List (List Char)
  | [] => []
  | l :: rest =>
    if l.take 2 = [ '-', ' ' ] ∨ l.take 2 = [ '*', ' ' ] then pstrip (l.drop 2) :: bullets rest
    else if l.take 2 = [ '+', ' ' ] then pstrip (l.drop 2) :: bullets rest
    else if l ≠ [] ∧ l.take 1 ≠ [ '#' ] then l :: bullets rest
    else bullets rest

/-- One iteration of the line loop of `_parse_image_slide`, acting on the
pair (image_path, caption_parts). -/
def imgFold (st : List Char × List (List Char)) (line : List Char) : List Char × List (List Char) :=
  match findImg line with
  | some (alt, p) => (p, if alt = [] then st.2 else st.2 ++ [alt])
  | none =>
    if endsAnyExt line then (line, st.2)
    else if line ≠ [] ∧ line.take 1 ≠ [ '!' ] then (st.1, st.2 ++ [line])
    else st

/-- `MarkdownParser._parse_image_slide`. -/
def parse_image_slide (title : List Char) (content_lines : List (List Char)) : SlideTemplate :=
  let st := content_lines.foldl imgFold ( "placeholder.jpg".toList, [])
  SlideTemplate.image_slide title st.1 (List.intercalate [ '\n' ] st.2)

/-- The type dispatch at the end of `_parse_slide` (title / image / section,
with content as the default branch, which also receives `comparison`). -/
def branchSlide (ty : SlideType) (title : List Char) (cls : List (List Char)) : SlideTemplate :=
  match ty with
  | .title => SlideTemplate.title_slide title (cls.headD [])
  | .image => parse_image_slide title cls
  | .sect => SlideTemplate.section_slide title (List.intercalate [ '\n' ] cls)
  | _ => SlideTemplate.content_slide title (bullets cls)

/-- `_parse_slide` after type resolution: title scan, empty-title rejection,
and the per-type branch. -/
def parseSlideCore (ty : SlideType) (content : List Char) : Option SlideTemplate :=
  let sc := titleScan (splitOnNl content)
  if sc.title = [] then none else some (branchSlide ty sc.title sc.cls)

/-- The slide type resolved by the directive-handling step of `_parse_slide`. -/
def effType (content : List Char) : SlideType :=
  match findDirWord content with
  | some w =>
    match SlideType.ofValue (lowerStr w) with
    | some ty => ty
    | none => SlideType.content
  | none => SlideType.content

/-- The content left after the directive-handling step of `_parse_slide`
(directives are removed only when the directive word is a known type). -/
def effContent (content : List Char) : List Char :=
  match findDirWord content with
  | some w =>
    match SlideType.ofValue (lowerStr w) with
    | some _ => subDir content
    | none => content
  | none => content

/-- `MarkdownParser._parse_slide`. -/
def parse_slide (content : List Char) : Option SlideTemplate :=
  if splitOnNl content = [] then none
  else
    match findDirWord content with
    | some w =>
      match SlideType.ofValue (lowerStr w) with
      | some ty => parseSlideCore ty (subDir content)
      | none => parseSlideCore SlideType.content content
    | none => parseSlideCore SlideType.content content

/-- The slide loop of `parse_content`: split, discard chunks that are empty
after stripping, parse each remaining chunk, keep the produced slides. -/
def buildSlides (content : List Char) : List SlideTemplate :=
  (slideSplit (pstrip content)).filterMap
    (fun sc => if pstrip sc = [] then none else parse_slide (pstrip sc))

/-- Errors of the parser: the spec taxonomy plus the AttributeError that
`metadata.get` raises on a truthy non-mapping metadata value.
`templateNotFound` is raised only by `parse_file` (missing file, not
modelled further). -/
inductive PError where
  | malformedFrontMatter (msg : List Char)
  | templateNotFound (msg : List Char)
  | attributeError
deriving DecidableEq, Repr

/-- The tail of `parse_content` after front-matter extraction:
`metadata.get('title', name)` (AttributeError on a non-mapping metadata),
then the slide loop. -/
def finishParse (metadata : YVal) (content : List Char) (name : List Char) :
    Except PError PresentationTemplate :=
  match metadata with
  | .ymap m =>
    .ok ⟨(List.lookup ( "title".toList) m).getD (.ystr name), buildSlides content⟩
  | _ => .error .attributeError

/-- `MarkdownParser.parse_content`, parameterized by the external
`yaml.safe_load` (`.error` models a raised `yaml.YAMLError`). -/
def parse_content (yamlFn : List Char → Except (List Char) YVal) (content : List Char)
    (name : List Char) : Except PError PresentationTemplate :=
  match frontmatterMatch content with
  | none => finishParse (.ymap []) content name
  | some (body, rest) =>
    match yamlFn body with
    | .error e => .error (.malformedFrontMatter e)
    | .ok v => finishParse (if v.truthy then v else .ymap []) rest name

/-- The content remaining after front-matter removal (unchanged when no
front matter matches). -/
def afterFM (content : List Char) : List Char :=
  match frontmatterMatch content with
  | some pr => pr.2
  | none => content

/-- The separator-delimited chunks of a document body that are non-empty
after stripping, each in stripped form. -/
def nonemptyChunks (content : List Char) : List (List Char) :=
  ((slideSplit (pstrip content)).map pstrip).filter (fun c => c ≠ [])

/-- Per-line bullet normalization transcribed from the (amended) spec
sentence: a leading bullet marker `- `, `* ` or `+ ` is removed and the
remainder whitespace-stripped; any other line is kept verbatim unless it is
empty or still starts with `#`, in which case it is dropped.  Used to state
the refinement of the bullet loop. -/
def bulletSpec (l : List Char) : Option (List Char) :=
  if l.take 2 = [ '-', ' ' ] ∨ l.take 2 = [ '*', ' ' ] ∨ l.take 2 = [ '+', ' ' ] then
    some (pstrip (l.drop 2))
  else if l ≠ [] ∧ l.take 1 ≠ [ '#' ] then some l
  else none

/-- Slide templates produced by one of the four factory constructors. -/
inductive FactoryBuilt : SlideTemplate → Prop
  | title (t s : List Char) : FactoryBuilt (SlideTemplate.title_slide t s)
  | content (t : List Char) (c : List (List Char)) : FactoryBuilt (SlideTemplate.content_slide t c)
  | image (t p c : List Char) : FactoryBuilt (SlideTemplate.image_slide t p c)
  | sect (t d : List Char) : FactoryBuilt (SlideTemplate.section_slide t d)

/-! ## Helper lemmas -/

theorem splitOnNl_ne_nil (s : List Char) : splitOnNl s ≠ [] := by
  cases s with
  | nil => simp [splitOnNl]
  | cons c rest =>
    simp only [splitOnNl]
    split
    · simp
    · split <;> simp

theorem lastNl_isSome_ne_nil {l : List Char} {i : Nat} (h : lastNl l = some i) : l ≠ [] := by
  intro hl
  subst hl
  simp [lastNl] at h

theorem sepTail_length {t r : List Char} (h : sepTail t = some r) : r.length < t.length := by
  unfold sepTail at h
  cases hl : lastNl (t.takeWhile isWS) with
  | none => rw [hl] at h; exact absurd h (by simp)
  | some i =>
    rw [hl] at h
    have ht : t ≠ [] := by
      intro he
      subst he
      exact lastNl_isSome_ne_nil hl rfl
    have : r = t.drop (i + 1) := by
      simpa using h.symm
    subst this
    have h0 : 0 < t.length := List.length_pos.mpr ht
    simp only [List.length_drop]
    omega

theorem findSep_length {s : List Char} {pr : List Char × List Char}
    (h : findSep s = some pr) : pr.2.length < s.length := by
  induction s generalizing pr with
  | nil => simp [findSep] at h
  | cons c rest ih =>
    simp only [findSep] at h
    split at h
    · cases hst : sepTail (rest.drop 3) with
      | some rem =>
        rw [hst] at h
        have hlen : rem.length < (rest.drop 3).length := sepTail_length hst
        have hpr : pr = ([], rem) := by
          cases h
          rfl
        rw [hpr]
        have : (rest.drop 3).length ≤ rest.length := by
          simp only [List.length_drop]
          omega
        simp only [List.length_cons]
        omega
      | none =>
        rw [hst] at h
        cases hf : findSep rest with
        | none => rw [hf] at h; simp at h
        | some pr' =>
          obtain ⟨p', r'⟩ := pr'
          rw [hf] at h
          simp only [Option.map] at h
          have hpr : pr = (c :: p', r') := by
            cases h
            rfl
          have hih := ih hf
          rw [hpr]
          simp only [List.length_cons] at hih ⊢
          omega
    · cases hf : findSep rest with
      | none => rw [hf] at h; simp at h
      | some pr' =>
        obtain ⟨p', r'⟩ := pr'
        rw [hf] at h
        simp only [Option.map] at h
        have hpr : pr = (c :: p', r') := by
          cases h
          rfl
        have hih := ih hf
        rw [hpr]
        simp only [List.length_cons] at hih ⊢
        omega

theorem slideSplitAux_fuel : ∀ n m : Nat, ∀ s : List Char,
    s.length ≤ n → s.length ≤ m → slideSplitAux n s = slideSplitAux m s := by
  intro n
  induction n with
  | zero =>
    intro m s h1 _
    have : s = [] := List.eq_nil_of_length_eq_zero (Nat.le_zero.mp h1)
    subst this
    cases m with
    | zero => rfl
    | succ m' => simp [slideSplitAux, findSep]
  | succ n' ih =>
    intro m s h1 h2
    cases m with
    | zero =>
      have : s = [] := List.eq_nil_of_length_eq_zero (Nat.le_zero.mp h2)
      subst this
      simp [slideSplitAux, findSep]
    | succ m' =>
      simp only [slideSplitAux]
      cases hf : findSep s with
      | none => rfl
      | some pr =>
        obtain ⟨p, rem⟩ := pr
        have hlen := findSep_length hf
        simp only at hlen
        show p :: slideSplitAux n' rem = p :: slideSplitAux m' rem
        rw [ih m' rem (by omega) (by omega)]

theorem slideSplit_of_none {s : List Char} (h : findSep s = none) : slideSplit s = [s] := by
  unfold slideSplit
  cases s with
  | nil => rfl
  | cons c rest => simp [slideSplitAux, h]

theorem slideSplit_of_some {s p rem : List Char} (h : findSep s = some (p, rem)) :
    slideSplit s = p :: slideSplit rem := by
  unfold slideSplit
  cases s with
  | nil => simp [findSep] at h
  | cons c rest =>
    have hlen := findSep_length h
    simp only [List.length_cons] at hlen
    simp only [List.length_cons, slideSplitAux, h]
    rw [slideSplitAux_fuel rest.length rem.length rem (by omega) (le_refl _)]

theorem lastNl_eq_none {l : List Char} (h : ∀ c ∈ l, c ≠ '\n') : lastNl l = none := by
  induction l with
  | nil => rfl
  | cons c rest ih =>
    simp only [lastNl]
    rw [ih (fun x hx => h x (List.mem_cons_of_mem c hx))]
    simp [h c (List.mem_cons_self c rest)]

theorem lastNl_ws_nl {x : List Char} (ws : List Char) (hx : ∀ c ∈ x, c ≠ '\n') :
    lastNl (ws ++ '\n' :: x) = some ws.length := by
  induction ws with
  | nil =>
    simp only [List.nil_append, lastNl]
    rw [lastNl_eq_none hx]
    simp
  | cons c rest ih =>
    simp only [List.cons_append, lastNl, List.append_eq]
    rw [ih]
    simp

theorem mem_takeWhile_mem {p : Char → Bool} {l : List Char} {c : Char}
    (h : c ∈ l.takeWhile p) : c ∈ l := by
  induction l with
  | nil => simp [List.takeWhile] at h
  | cons a rest ih =>
    simp only [List.takeWhile] at h
    by_cases hp : p a
    · rw [hp] at h
      rcases List.mem_cons.mp h with h1 | h2
      · exact h1 ▸ List.mem_cons_self a rest
      · exact List.mem_cons_of_mem a (ih h2)
    · simp [hp] at h

theorem takeWhile_ws_append {ws : List Char} (b : List Char)
    (h : ∀ c ∈ ws, isWS c = true) :
    List.takeWhile isWS (ws ++ '\n' :: b) = ws ++ '\n' :: List.takeWhile isWS b := by
  induction ws with
  | nil => simp [List.takeWhile, isWS]
  | cons c rest ih =>
    simp only [List.cons_append, List.takeWhile, List.append_eq]
    rw [h c (List.mem_cons_self c rest), ih (fun x hx => h x (List.mem_cons_of_mem c hx))]

theorem sepTail_ws_nl {ws b : List Char} (hws : ∀ c ∈ ws, isWS c = true)
    (hb : ∀ c ∈ b, c ≠ '\n') : sepTail (ws ++ '\n' :: b) = some b := by
  unfold sepTail
  rw [takeWhile_ws_append b hws]
  rw [lastNl_ws_nl ws (fun c hc => hb c (mem_takeWhile_mem hc))]
  show some (List.drop (ws.length + 1) (ws ++ '\n' :: b)) = some b
  have harr : ws ++ '\n' :: b = (ws ++ [ '\n' ]) ++ b := by simp
  have hlen : ws.length + 1 = (ws ++ [ '\n' ]).length := by simp
  rw [harr, hlen, List.drop_left]

theorem findSep_none_of_no_nl {l : List Char} (h : ∀ c ∈ l, c ≠ '\n') :
    findSep l = none := by
  induction l with
  | nil => rfl
  | cons c rest ih =>
    simp only [findSep]
    rw [if_neg]
    · rw [ih (fun x hx => h x (List.mem_cons_of_mem c hx))]
      rfl
    · intro hand
      exact h c (List.mem_cons_self c rest) hand.1

theorem findSep_append_no_nl {a : List Char} (s : List Char) (h : ∀ c ∈ a, c ≠ '\n') :
    findSep (a ++ s) = (findSep s).map (fun pr => (a ++ pr.1, pr.2)) := by
  induction a with
  | nil =>
    simp only [List.nil_append]
    cases findSep s with
    | none => rfl
    | some pr => simp
  | cons c rest ih =>
    simp only [List.cons_append, findSep, List.append_eq]
    rw [if_neg]
    · rw [ih (fun x hx => h x (List.mem_cons_of_mem c hx))]
      cases findSep s with
      | none => rfl
      | some pr => simp
    · intro hand
      exact h c (List.mem_cons_self c rest) hand.1

theorem findSep_at_sep {ws b : List Char} (hws : ∀ c ∈ ws, isWS c = true)
    (hb : ∀ c ∈ b, c ≠ '\n') :
    findSep ('\n' :: '-' :: '-' :: '-' :: (ws ++ '\n' :: b)) = some ([], b) := by
  simp only [findSep, List.take, List.drop]
  rw [if_pos]
  · rw [sepTail_ws_nl hws hb]
  · exact ⟨trivial, trivial⟩

theorem filterMap_all_some {α β : Type} (l : List α) (f : α → Option β)
    (h : ∀ c ∈ l, (f c).isSome) : (l.filterMap f).map some = l.map f := by
  induction l with
  | nil => rfl
  | cons c rest ih =>
    obtain ⟨b, hb⟩ := Option.isSome_iff_exists.mp (h c (List.mem_cons_self c rest))
    simp only [List.filterMap_cons, hb, List.map_cons]
    rw [ih (fun x hx => h x (List.mem_cons_of_mem c hx))]

theorem chunkLoop_eq (l : List (List Char)) :
    l.filterMap (fun sc => if pstrip sc = [] then none else parse_slide (pstrip sc)) =
      ((l.map pstrip).filter (fun c => c ≠ [])).filterMap parse_slide := by
  induction l with
  | nil => rfl
  | cons sc rest ih =>
    by_cases h : pstrip sc = []
    · simp [List.filterMap_cons, List.filter_cons, h, ih]
    · simp [List.filterMap_cons, List.filter_cons, h, ih]

theorem buildSlides_eq (content : List Char) :
    buildSlides content = (nonemptyChunks content).filterMap parse_slide := by
  unfold buildSlides nonemptyChunks
  exact chunkLoop_eq _

theorem finishParse_ok_slides {meta : YVal} {content name : List Char}
    {t : PresentationTemplate} (h : finishParse meta content name = .ok t) :
    t.slides = buildSlides content := by
  unfold finishParse at h
  cases meta with
  | ymap m => cases h; rfl
  | ynull => exact Except.noConfusion h
  | ybool b => exact Except.noConfusion h
  | yint n => exact Except.noConfusion h
  | ystr s => exact Except.noConfusion h
  | ylist l => exact Except.noConfusion h

theorem finishParse_ok_name {m : List (List Char × YVal)} {content name : List Char}
    {t : PresentationTemplate} (h : finishParse (.ymap m) content name = .ok t) :
    t.name = (List.lookup ( "title".toList) m).getD (.ystr name) := by
  unfold finishParse at h
  cases h
  rfl

theorem parse_ok_slides {yamlFn : List Char → Except (List Char) YVal}
    {content name : List Char} {t : PresentationTemplate}
    (h : parse_content yamlFn content name = .ok t) :
    t.slides = buildSlides (afterFM content) := by
  unfold afterFM
  cases hfm : frontmatterMatch content with
  | none =>
    simp only [parse_content, hfm] at h
    exact finishParse_ok_slides h
  | some pr =>
    obtain ⟨body, rest⟩ := pr
    simp only [parse_content, hfm] at h
    cases hy : yamlFn body with
    | error e =>
      simp only [hy] at h
      exact Except.noConfusion h
    | ok v =>
      simp only [hy] at h
      exact finishParse_ok_slides h

theorem ofValue_value (st : SlideType) : SlideType.ofValue st.value = some st := by
  cases st <;> rfl

theorem slidesFromDicts_roundtrip (sl : List SlideTemplate) :
    slidesFromDicts (sl.map SlideTemplate.to_dict) = some sl := by
  induction sl with
  | nil => rfl
  | cons s rest ih =>
    simp only [List.map_cons, slidesFromDicts]
    rw [show (SlideTemplate.to_dict s).type = s.slide_type.value from rfl, ofValue_value]
    simp only [ih, Option.map_some]
    rfl

theorem parse_slide_eq_core (c : List Char) :
    parse_slide c = parseSlideCore (effType c) (effContent c) := by
  unfold parse_slide effType effContent
  rw [if_neg (splitOnNl_ne_nil c)]
  cases hd : findDirWord c with
  | none => rfl
  | some w =>
    cases ho : SlideType.ofValue (lowerStr w) with
    | none => simp [ho]
    | some ty => simp [ho]

theorem branchSlide_lookup_title (ty : SlideType) (ttl : List Char) (cls : List (List Char)) :
    List.lookup ( "title".toList) (branchSlide ty ttl cls).params = some (PValue.str ttl) := by
  cases ty <;>
    simp [branchSlide, SlideTemplate.title_slide, SlideTemplate.content_slide,
      SlideTemplate.image_slide, SlideTemplate.section_slide, parse_image_slide, List.lookup]

theorem foldl_scanStep_no_hash (lines : List (List Char)) (st : ScanSt)
    (hf : st.found = false) (h : ∀ l ∈ lines, (pstrip l).take 1 ≠ [ '#' ]) :
    List.foldl scanStep st lines = st := by
  induction lines with
  | nil => rfl
  | cons l rest ih =>
    have hstep : scanStep st l = st := by
      unfold scanStep
      by_cases h0 : pstrip l = []
      · simp [h0]
      · rw [if_neg h0, if_neg, if_neg]
        · rw [hf]
          simp
        · intro hand
          exact h l (List.mem_cons_self l rest) hand.1
    rw [List.foldl_cons, hstep, ih (fun x hx => h x (List.mem_cons_of_mem l hx))]

theorem imgFold_keep (cls : List (List Char)) (p : List Char) (parts : List (List Char))
    (h : ∀ l ∈ cls, findImg l = none ∧ endsAnyExt l = false) :
    (cls.foldl imgFold (p, parts)).1 = p := by
  induction cls generalizing parts with
  | nil => rfl
  | cons l rest ih =>
    have hl := h l (List.mem_cons_self l rest)
    have hrest : ∀ x ∈ rest, findImg x = none ∧ endsAnyExt x = false :=
      fun x hx => h x (List.mem_cons_of_mem l hx)
    rw [List.foldl_cons]
    by_cases hc : l ≠ [] ∧ l.take 1 ≠ [ '!' ]
    · rw [show imgFold (p, parts) l = (p, parts ++ [l]) by
        unfold imgFold
        rw [hl.1]
        simp [hl.2, hc]]
      exact ih (parts ++ [l]) hrest
    · rw [show imgFold (p, parts) l = (p, parts) by
        unfold imgFold
        rw [hl.1]
        simp [hl.2, hc]]
      exact ih parts hrest

theorem bullets_eq_filterMap (ls : List (List Char)) :
    bullets ls = ls.filterMap bulletSpec := by
  induction ls with
  | nil => rfl
  | cons l rest ih =>
    simp only [bullets, bulletSpec, List.filterMap_cons]
    by_cases h1 : l.take 2 = [ '-', ' ' ] ∨ l.take 2 = [ '*', ' ' ]
    · rw [if_pos h1, if_pos (h1.elim (fun ha => Or.inl ha) (fun hb => Or.inr (Or.inl hb)))]
      simp [ih]
    · by_cases h2 : l.take 2 = [ '+', ' ' ]
      · rw [if_neg h1, if_pos h2, if_pos (Or.inr (Or.inr h2))]
        simp [ih]
      · have hno : ¬(l.take 2 = [ '-', ' ' ] ∨ l.take 2 = [ '*', ' ' ] ∨ l.take 2 = [ '+', ' ' ]) :=
          fun hor => hor.elim (fun ha => h1 (Or.inl ha))
            (fun hbc => hbc.elim (fun hb => h1 (Or.inr hb)) h2)
        rw [if_neg h1, if_neg h2, if_neg hno]
        by_cases h3 : l ≠ [] ∧ l.take 1 ≠ [ '#' ]
        · rw [if_pos h3, if_pos h3]
          simp [ih]
        · rw [if_neg h3, if_neg h3]
          simp [ih]

/-! ## Claim theorems -/

/-- C1 (amended): for every document whose parse succeeds, the slides are
exactly the per-chunk parses of the separator-delimited chunks that are
non-empty after stripping, in chunk order; when every such chunk yields a
slide, the template has exactly as many slides as there are such chunks,
in source order.  (The original claim, requiring only that each chunk
contain a line starting with a hash, fails: a hash line whose stripped
title is empty yields no slide.) -/
theorem parse_slide_count_order (yamlFn : List Char → Except (List Char) YVal)
    (content name : List Char) (t : PresentationTemplate)
    (hok : parse_content yamlFn content name = .ok t)
    (hall : ∀ c ∈ nonemptyChunks (afterFM content), (parse_slide c).isSome) :
    t.slides.length = (nonemptyChunks (afterFM content)).length ∧
    t.slides.map some = (nonemptyChunks (afterFM content)).map parse_slide := by
  have hs : t.slides = (nonemptyChunks (afterFM content)).filterMap parse_slide := by
    rw [parse_ok_slides hok, buildSlides_eq]
  have hmap := filterMap_all_some _ _ hall
  constructor
  · rw [hs]
    have hlen := congrArg List.length hmap
    simpa using hlen
  · rw [hs, hmap]

theorem parse_slide_count_order_witness :
    (PresentationTemplate.mk (.ystr ( "nm".toList))
        [SlideTemplate.content_slide [ 'A' ] [],
         SlideTemplate.content_slide [ 'B' ] [[ 'x' ]]]).slides.length =
      (nonemptyChunks (afterFM ( "# A\n\n---\n\n# B\n- x".toList))).length ∧
    (PresentationTemplate.mk (.ystr ( "nm".toList))
        [SlideTemplate.content_slide [ 'A' ] [],
         SlideTemplate.content_slide [ 'B' ] [[ 'x' ]]]).slides.map some =
      (nonemptyChunks (afterFM ( "# A\n\n---\n\n# B\n- x".toList))).map parse_slide :=
  parse_slide_count_order (fun _ => .ok .ynull) ( "# A\n\n---\n\n# B\n- x".toList)
    ( "nm".toList) _ (by rfl) (by decide)

/-- C1 counterexample: the document consisting of the single character hash
has one separator-delimited chunk, non-empty after stripping and containing
a line starting with hash, yet the parse yields zero slides (the stripped
title is empty, so the chunk is skipped). -/
theorem parse_slide_count_cex :
    nonemptyChunks (afterFM ( "#".toList)) = [ [ '#' ] ] ∧
    (∃ l ∈ splitOnNl [ '#' ], l.take 1 = [ '#' ]) ∧
    parse_content (fun _ => .ok .ynull) ( "#".toList) ( "nm".toList) =
      .ok ⟨.ystr ( "nm".toList), []⟩ :=
  ⟨rfl, ⟨[ '#' ], by decide, rfl⟩, rfl⟩

/-- C2: for every presentation template whose slides are factory-built,
from_dict of to_dict reconstructs the template exactly (same name, same
ordered slide types and params, image paths included). -/
theorem from_dict_to_dict_id (t : PresentationTemplate)
    (_h : ∀ s ∈ t.slides, FactoryBuilt s) :
    PresentationTemplate.from_dict t.to_dict = some t := by
  unfold PresentationTemplate.from_dict PresentationTemplate.to_dict
  simp only [slidesFromDicts_roundtrip, Option.map_some']

theorem from_dict_to_dict_id_witness :
    PresentationTemplate.from_dict (PresentationTemplate.to_dict
      ⟨.ystr ( "Deck".toList),
        [SlideTemplate.title_slide ( "T".toList) ( "S".toList),
         SlideTemplate.content_slide ( "C".toList) [ "a".toList, "b".toList ],
         SlideTemplate.image_slide ( "I".toList) ( "p.png".toList) ( "cap".toList),
         SlideTemplate.section_slide ( "S2".toList) ( "d".toList)]⟩) =
      some ⟨.ystr ( "Deck".toList),
        [SlideTemplate.title_slide ( "T".toList) ( "S".toList),
         SlideTemplate.content_slide ( "C".toList) [ "a".toList, "b".toList ],
         SlideTemplate.image_slide ( "I".toList) ( "p.png".toList) ( "cap".toList),
         SlideTemplate.section_slide ( "S2".toList) ( "d".toList)]⟩ :=
  from_dict_to_dict_id _ (by
    intro s hs
    simp only [List.mem_cons, List.not_mem_nil, or_false] at hs
    rcases hs with h | h | h | h <;> subst h
    · exact FactoryBuilt.title _ _
    · exact FactoryBuilt.content _ _
    · exact FactoryBuilt.image _ _ _
    · exact FactoryBuilt.sect _ _)

/-- C3: when the front-matter block matches and the YAML parse of its body
fails, parse_content fails with MalformedFrontMatter carrying the failure
reason and returns no template; when no front-matter block matches, the
parse succeeds (absence of front matter is not an error). -/
theorem frontmatter_error_aborts (yamlFn : List Char → Except (List Char) YVal)
    (content name : List Char) :
    (∀ body rest e, frontmatterMatch content = some (body, rest) →
        yamlFn body = .error e →
        parse_content yamlFn content name = .error (.malformedFrontMatter e)) ∧
    (frontmatterMatch content = none →
        parse_content yamlFn content name = .ok ⟨.ystr name, buildSlides content⟩) := by
  constructor
  · intro body rest e hfm hy
    simp only [parse_content, hfm, hy]
  · intro hfm
    simp only [parse_content, hfm, finishParse]
    rfl

theorem frontmatter_error_aborts_witness :
    parse_content (fun _ => .error ( "bad".toList)) ( "---\na: b\n---\n# T".toList)
        ( "nm".toList) = .error (.malformedFrontMatter ( "bad".toList)) ∧
    parse_content (fun _ => .error ( "bad".toList)) ( "# T".toList) ( "nm".toList) =
      .ok ⟨.ystr ( "nm".toList), buildSlides ( "# T".toList)⟩ :=
  ⟨(frontmatter_error_aborts _ _ _).1 ( "a: b".toList) ( "# T".toList) _ (by rfl) rfl,
   (frontmatter_error_aborts _ _ _).2 (by rfl)⟩

/-- C4 (amended): parse_slide yields no slide exactly when the title
extracted from the effective content (after directive handling) is empty --
in particular a chunk with no hash line yields no slide, but so does a hash
line whose stripped title is empty (emptiness is validated at this layer);
when the extracted title is non-empty a slide is produced carrying that
title.  (The original claim, that a slide is produced whenever a hash line
exists even with empty title, fails.) -/
theorem parse_slide_title_char (c : List Char) :
    (parse_slide c = none ↔ (titleScan (splitOnNl (effContent c))).title = []) ∧
    ((titleScan (splitOnNl (effContent c))).title ≠ [] →
      (parse_slide c).map (fun s => List.lookup ( "title".toList) s.params) =
        some (some (PValue.str (titleScan (splitOnNl (effContent c))).title))) ∧
    ((∀ l ∈ splitOnNl (effContent c), (pstrip l).take 1 ≠ [ '#' ]) → parse_slide c = none) := by
  refine ⟨?_, ?_, ?_⟩
  · rw [parse_slide_eq_core]
    simp only [parseSlideCore]
    by_cases h : (titleScan (splitOnNl (effContent c))).title = []
    · simp [h]
    · simp [h]
  · intro h
    rw [parse_slide_eq_core]
    simp only [parseSlideCore]
    rw [if_neg h]
    simp only [Option.map_some']
    rw [branchSlide_lookup_title]
  · intro h
    rw [parse_slide_eq_core]
    simp only [parseSlideCore, titleScan]
    rw [foldl_scanStep_no_hash _ _ rfl h]
    simp

theorem parse_slide_title_char_witness :
    (parse_slide ( "# Hi\nbody".toList)).map
        (fun s => List.lookup ( "title".toList) s.params) =
      some (some (PValue.str
        (titleScan (splitOnNl (effContent ( "# Hi\nbody".toList)))).title)) ∧
    parse_slide ( "Just some content without a title".toList) = none :=
  ⟨(parse_slide_title_char _).2.1 (by decide),
   (parse_slide_title_char _).2.2 (by decide)⟩

/-- C4 counterexample: the chunk consisting of a hash followed by a second
line has a line starting with a hash, yet parse_slide yields no slide,
because the stripped title is empty. -/
theorem parse_slide_title_cex :
    (∃ l ∈ splitOnNl ( "#\nx".toList), l.take 1 = [ '#' ]) ∧
    parse_slide ( "#\nx".toList) = none :=
  ⟨⟨[ '#' ], by decide, rfl⟩, rfl⟩

/-- C5 (amended): slide splitting divides the document at every line that
consists of three hyphens (optionally followed by trailing whitespace) and
is preceded by a newline; surrounding blank lines are not required.  (The
original claim, that a three-hyphen line not surrounded by blank lines does
not create a boundary, fails.) -/
theorem slideSplit_sep_anywhere (a ws b : List Char)
    (ha : ∀ c ∈ a, c ≠ '\n') (hws : ∀ c ∈ ws, c = ' ' ∨ c = '\t')
    (hb : ∀ c ∈ b, c ≠ '\n') :
    slideSplit (a ++ '\n' :: '-' :: '-' :: '-' :: (ws ++ '\n' :: b)) = [a, b] := by
  have hws' : ∀ c ∈ ws, isWS c = true := by
    intro c hc
    rcases hws c hc with h | h <;> simp [isWS, h]
  have hf : findSep (a ++ '\n' :: '-' :: '-' :: '-' :: (ws ++ '\n' :: b)) = some (a, b) := by
    rw [findSep_append_no_nl _ ha, findSep_at_sep hws' hb]
    simp
  rw [slideSplit_of_some hf, slideSplit_of_none (findSep_none_of_no_nl hb)]

theorem slideSplit_sep_anywhere_witness :
    slideSplit ( "# A".toList ++ '\n' :: '-' :: '-' :: '-' :: ([] ++ '\n' :: "# B".toList)) =
      [ "# A".toList, "# B".toList ] :=
  slideSplit_sep_anywhere ( "# A".toList) [] ( "# B".toList) (by decide) (by decide) (by decide)

/-- C5 counterexample: in the document with lines hash-A, three hyphens,
hash-B there are no blank lines around the three-hyphen line, yet it
creates a slide boundary: the split yields two chunks and the parse two
slides. -/
theorem slideSplit_sep_cex :
    slideSplit ( "# A\n---\n# B".toList) = [ "# A".toList, "# B".toList ] ∧
    parse_content (fun _ => .ok .ynull) ( "# A\n---\n# B".toList) ( "nm".toList) =
      .ok ⟨.ystr ( "nm".toList),
        [SlideTemplate.content_slide [ 'A' ] [], SlideTemplate.content_slide [ 'B' ] []]⟩ :=
  ⟨rfl, rfl⟩

/-- C6 (amended): for a content-type chunk, each body line with a leading
two-character bullet marker has the marker removed and the remainder
whitespace-stripped; other lines are kept verbatim unless empty or starting
with a hash (dropped), in an ordered duplicate-preserving list; in
particular body lines dash-A, star-B, plus-C, D yield A, B, C, D in that
order.  (The original claim, that exactly the two-character prefix is
removed and nothing else, fails on a line with whitespace after the
marker.) -/
theorem bullets_normalization :
    (∀ ls, bullets ls = ls.filterMap bulletSpec) ∧
    parse_slide ( "# T\n- A\n* B\n+ C\nD".toList) =
      some (SlideTemplate.content_slide [ 'T' ] [[ 'A' ], [ 'B' ], [ 'C' ], [ 'D' ]]) :=
  ⟨bullets_eq_filterMap, rfl⟩

/-- C6 counterexample: the body line dash-space-space-A yields the item A,
not the item space-A that stripping exactly the two-character prefix would
give: the code also strips the whitespace after the marker. -/
theorem bullets_cex :
    bullets [ "-  A".toList ] = [ [ 'A' ] ] ∧
    bullets [ "-  A".toList ] ≠ [ ( "-  A".toList).drop 2 ] ∧
    parse_slide ( "# T\n-  A".toList) =
      some (SlideTemplate.content_slide [ 'T' ] [[ 'A' ]]) :=
  ⟨rfl, by decide, rfl⟩

/-- C7: for an image-type chunk, a body line with inline image markup sets
the image path to the captured path and appends a non-empty alt text to the
caption parts; otherwise a line ending in a known image extension becomes
the image path; otherwise a non-empty line not starting with an exclamation
mark becomes a caption fragment; when no line sets a path the image path is
the literal placeholder; caption fragments are joined with newline. -/
theorem image_slide_parsing :
    (∀ st line alt p, findImg line = some (alt, p) →
        imgFold st line = (p, if alt = [] then st.2 else st.2 ++ [alt])) ∧
    (∀ st line, findImg line = none → endsAnyExt line = true →
        imgFold st line = (line, st.2)) ∧
    (∀ st line, findImg line = none → endsAnyExt line = false → line ≠ [] →
        line.take 1 ≠ [ '!' ] → imgFold st line = (st.1, st.2 ++ [line])) ∧
    (∀ title cls, (∀ l ∈ cls, findImg l = none ∧ endsAnyExt l = false) →
        List.lookup ( "image_path".toList) (parse_image_slide title cls).params =
          some (.path ( "placeholder.jpg".toList))) ∧
    parse_image_slide ( "T".toList) [ "![alt](p.png)".toList ] =
      SlideTemplate.image_slide ( "T".toList) ( "p.png".toList) ( "alt".toList) ∧
    parse_image_slide ( "T".toList) [ "image.jpg".toList, "caption text".toList ] =
      SlideTemplate.image_slide ( "T".toList) ( "image.jpg".toList) ( "caption text".toList) ∧
    parse_image_slide ( "T".toList) [ "cap1".toList, "cap2".toList ] =
      SlideTemplate.image_slide ( "T".toList) ( "placeholder.jpg".toList)
        ( "cap1\ncap2".toList) := by
  refine ⟨?_, ?_, ?_, ?_, rfl, rfl, rfl⟩
  · intro st line alt p h
    unfold imgFold
    rw [h]
  · intro st line h1 h2
    unfold imgFold
    rw [h1]
    simp [h2]
  · intro st line h1 h2 h3 h4
    unfold imgFold
    rw [h1]
    simp [h2, h3, h4]
  · intro title cls h
    have hp := imgFold_keep cls ( "placeholder.jpg".toList) [] h
    simp only [parse_image_slide, SlideTemplate.image_slide, hp]
    rfl

theorem image_slide_parsing_witness :
    imgFold (([], []) : List Char × List (List Char)) ( "![alt](p.png)".toList) =
      ( "p.png".toList,
        if ( "alt".toList) = ([] : List Char) then ([] : List (List Char))
        else [] ++ [ "alt".toList ]) ∧
    imgFold (([ 'q' ], []) : List Char × List (List Char)) ( "image.jpg".toList) =
      ( "image.jpg".toList, []) ∧
    imgFold (([ 'q' ], []) : List Char × List (List Char)) ( "hello".toList) =
      ([ 'q' ], [] ++ [ "hello".toList ]) ∧
    List.lookup ( "image_path".toList)
        (parse_image_slide [ 'T' ] [ "hello".toList ]).params =
      some (.path ( "placeholder.jpg".toList)) :=
  ⟨image_slide_parsing.1 _ _ _ _ rfl,
   image_slide_parsing.2.1 _ _ rfl rfl,
   image_slide_parsing.2.2.1 _ _ rfl rfl (by decide) (by decide),
   image_slide_parsing.2.2.2.1 _ _ (by decide)⟩

/-- C8: when the front matter parses to a mapping, the template name is the
value of its title key when present and the fallback name otherwise; when
no front-matter block matches, the template name is the fallback name. -/
theorem parse_name_resolution (yamlFn : List Char → Except (List Char) YVal)
    (content fallback : List Char) (t : PresentationTemplate)
    (hok : parse_content yamlFn content fallback = .ok t) :
    (frontmatterMatch content = none → t.name = .ystr fallback) ∧
    (∀ body rest m, frontmatterMatch content = some (body, rest) →
        yamlFn body = .ok (.ymap m) →
        t.name = (List.lookup ( "title".toList) m).getD (.ystr fallback)) := by
  constructor
  · intro hfm
    simp only [parse_content, hfm] at hok
    have hn := finishParse_ok_name hok
    rw [hn]
    rfl
  · intro body rest m hfm hy
    simp only [parse_content, hfm, hy] at hok
    cases m with
    | nil =>
      simp only [ite_self] at hok
      exact finishParse_ok_name hok
    | cons k ks =>
      have ht : (YVal.ymap (k :: ks)).truthy = true := by
        simp [YVal.truthy]
      rw [if_pos ht] at hok
      exact finishParse_ok_name hok

theorem parse_name_resolution_witness :
    (PresentationTemplate.mk (.ystr [ 'X' ]) [SlideTemplate.content_slide [ 'A' ] []]).name =
      (List.lookup ( "title".toList) [( "title".toList, YVal.ystr [ 'X' ])]).getD
        (.ystr ( "fb".toList)) ∧
    (PresentationTemplate.mk (.ystr ( "fb".toList))
        [SlideTemplate.content_slide [ 'A' ] []]).name = .ystr ( "fb".toList) :=
  ⟨(parse_name_resolution (fun _ => .ok (.ymap [( "title".toList, YVal.ystr [ 'X' ])]))
      ( "---\ntitle: X\n---\n# A".toList) ( "fb".toList)
      (PresentationTemplate.mk (.ystr [ 'X' ]) [SlideTemplate.content_slide [ 'A' ] []])
      (by rfl)).2 ( "title: X".toList) ( "# A".toList)
      [( "title".toList, YVal.ystr [ 'X' ])] (by rfl) rfl,
   (parse_name_resolution (fun _ => .ok .ynull) ( "# A".toList) ( "fb".toList)
      (PresentationTemplate.mk (.ystr ( "fb".toList))
        [SlideTemplate.content_slide [ 'A' ] []])
      (by rfl)).1 rfl⟩

/-- C9: a chunk whose type directive word is not a known SlideType value is
parsed without failure under default content handling, with the directive
text left in place (the content is not rewritten). -/
theorem unknown_directive_defaults (c w : List Char)
    (hd : findDirWord c = some w) (ho : SlideType.ofValue (lowerStr w) = none) :
    parse_slide c = parseSlideCore SlideType.content c ∧ effContent c = c := by
  constructor
  · unfold parse_slide
    rw [if_neg (splitOnNl_ne_nil c)]
    simp [hd, ho]
  · unfold effContent
    simp [hd, ho]

theorem unknown_directive_defaults_witness :
    parse_slide ( "<!-- type: bogus -->\n# T\n- x".toList) =
      parseSlideCore SlideType.content ( "<!-- type: bogus -->\n# T\n- x".toList) ∧
    effContent ( "<!-- type: bogus -->\n# T\n- x".toList) =
      ( "<!-- type: bogus -->\n# T\n- x".toList) :=
  unknown_directive_defaults _ ( "bogus".toList) rfl rfl

/-- C10: a front-matter block that parses to a truthy non-mapping YAML
value makes parse_content fail with the AttributeError of the title lookup,
which is neither MalformedFrontMatter nor TemplateNotFound, instead of
falling back to the fallback name. -/
theorem nonmapping_frontmatter_error (yamlFn : List Char → Except (List Char) YVal)
    (content name body rest : List Char) (v : YVal)
    (hfm : frontmatterMatch content = some (body, rest)) (hy : yamlFn body = .ok v)
    (ht : v.truthy = true) (hv : ∀ m, v ≠ .ymap m) :
    parse_content yamlFn content name = .error .attributeError ∧
    (∀ msg, (PError.attributeError : PError) ≠ .malformedFrontMatter msg) ∧
    (∀ msg, (PError.attributeError : PError) ≠ .templateNotFound msg) := by
  refine ⟨?_, fun msg h => PError.noConfusion h, fun msg h => PError.noConfusion h⟩
  have hmeta : (if v.truthy = true then v else YVal.ymap []) = v := by
    rw [ht]
    simp
  simp only [parse_content, hfm, hy, hmeta]
  cases v with
  | ymap m => exact absurd rfl (hv m)
  | ynull => simp [YVal.truthy] at ht
  | ybool b => rfl
  | yint n => rfl
  | ystr s => rfl
  | ylist l => rfl

theorem nonmapping_frontmatter_error_witness :
    parse_content (fun _ => .ok (.ystr [ 'x' ])) ( "---\nx\n---\nrest".toList)
        ( "nm".toList) = .error .attributeError ∧
    (PError.attributeError : PError) ≠ .malformedFrontMatter ( "e".toList) ∧
    (PError.attributeError : PError) ≠ .templateNotFound ( "f".toList) :=
  ⟨(nonmapping_frontmatter_error _ _ _ ( "x".toList) ( "rest".toList) (.ystr [ 'x' ])
      (by rfl) rfl (by rfl) (fun m h => by cases h)).1,
   (nonmapping_frontmatter_error (fun _ => .ok (.ystr [ 'x' ]))
      ( "---\nx\n---\nrest".toList) ( "nm".toList) ( "x".toList) ( "rest".toList)
      (.ystr [ 'x' ]) (by rfl) rfl (by rfl) (fun m h => by cases h)).2.1 _,
   (nonmapping_frontmatter_error (fun _ => .ok (.ystr [ 'x' ]))
      ( "---\nx\n---\nrest".toList) ( "nm".toList) ( "x".toList) ( "rest".toList)
      (.ystr [ 'x' ]) (by rfl) rfl (by rfl) (fun m h => by cases h)).2.2 _⟩
